/-
Verification of the Hybrid Support Bot's chunking, retrieval and synthesis
pipeline (src/pdf_parser.py, src/vector_store.py, src/query_system.py,
src/llm_interface.py) against its natural-language specification.

Strings are modelled as Lean `String`s; all character-level processing is
done on `List Char` (the `data` of a `String`), mirroring Python's
character-indexed string operations.  All regular expressions appearing in
the source are compiled to explicit Lean functions whose behaviour follows
Python `re` semantics (greedy matching with backtracking); where a pattern
is deterministic (maximal-munch classes separated by disjoint classes) it
is compiled to a direct scanner, and the two `re.search` patterns of
`_extract_chapter_mention` are run on a small backtracking engine whose
alternative order models Python's backtracking priority.
-/
import Mathlib

set_option maxRecDepth 10000

namespace SupportBot

/-! ## Character classes (Python `\s`, `\d`, `[A-Z]`, `[a-z]`, ASCII) -/

/-- Python `\s` on ASCII text: space, tab, newline, carriage return,
form feed, vertical tab. -/
def isSpaceB (c : Char) : Bool :=
  c = ' ' || c = '\t' || c = '\n' || c = '\r' || c = '\x0b' || c = '\x0c'

def isDigitB (c : Char) : Bool := '0' ≤ c && c ≤ '9'

def isUpperB (c : Char) : Bool := 'A' ≤ c && c ≤ 'Z'

def isLowerB (c : Char) : Bool := 'a' ≤ c && c ≤ 'z'

def isAlphaB (c : Char) : Bool := isUpperB c || isLowerB c

/-- ASCII lowercasing, the effect of Python's `str.lower()` on ASCII text. -/
def lowerC (c : Char) : Char := if isUpperB c then Char.ofNat (c.toNat + 32) else c

def upperC (c : Char) : Char := if isLowerB c then Char.ofNat (c.toNat - 32) else c

def lowerL (l : List Char) : List Char := l.map lowerC

/-! ## Python string primitives on `List Char` -/

/-- Python `str.strip()`: drop leading and trailing whitespace. -/
def stripL (l : List Char) : List Char :=
  ((l.dropWhile isSpaceB).reverse.dropWhile isSpaceB).reverse

/-- Python `re.sub(r'\s+', ' ', s)`: replace each maximal whitespace run by
a single space.  The boolean records whether the previous character was
part of a whitespace run. -/
def collapseWsAux : Bool → List Char → List Char
  | _, [] => []
  | prevWs, c :: cs =>
    if isSpaceB c then
      if prevWs then collapseWsAux true cs else ' ' :: collapseWsAux true cs
    else c :: collapseWsAux false cs

def collapseWsL (l : List Char) : List Char := collapseWsAux false l

/-- Python `text.split('\n')`: split at every newline, keeping empty pieces. -/
def splitLinesGo (cur : List Char) : List Char → List (List Char)
  | [] => [cur.reverse]
  | c :: rest =>
    if c = '\n' then cur.reverse :: splitLinesGo [] rest
    else splitLinesGo (c :: cur) rest

def splitLinesNl (l : List Char) : List (List Char) := splitLinesGo [] l

/-- Python `str.split()` (no argument): words separated by whitespace runs,
empty pieces dropped.  `cur` is the current word, reversed. -/
def wordsAcc : List Char → List Char → List (List Char)
  | cur, [] => if cur = [] then [] else [cur.reverse]
  | cur, c :: cs =>
    if isSpaceB c then
      if cur = [] then wordsAcc [] cs else cur.reverse :: wordsAcc [] cs
    else wordsAcc (c :: cur) cs

def pyWordsL (l : List Char) : List (List Char) := wordsAcc [] l

/-- Python `' '.join(words)`. -/
def joinSp : List (List Char) → List Char
  | [] => []
  | [w] => w
  | w :: ws => w ++ ' ' :: joinSp ws

/-- Python `needle in hay` for strings: contiguous-substring test. -/
def hasInfix (hay needle : List Char) : Bool :=
  if needle.isPrefixOf hay then true
  else
    match hay with
    | [] => false
    | _ :: t => hasInfix t needle

/-- Python `str.title()` restricted to ASCII: the first letter of each
alphabetic run is uppercased, the rest lowercased.  The boolean records
whether the previous character was alphabetic. -/
def titleAux : Bool → List Char → List Char
  | _, [] => []
  | prevAlpha, c :: cs =>
    if isAlphaB c then
      (if prevAlpha then lowerC c else upperC c) :: titleAux true cs
    else c :: titleAux false cs

def titleL (l : List Char) : List Char := titleAux false l

/-! ## `PDFParser._detect_chapter` — the six heading patterns

Each `re.match` pattern of `_detect_chapter` is compiled to a function
from the (stripped) line to the optional capture of group 1.  All six
patterns have the shape literal/classes then a capture then `$`; each
quantified class is disjoint from its successor except for the
`[:\.\s]+(.+)$` tail, where greedy backtracking gives the capture
everything after the longest class run that still leaves at least one
character (derived below in `matchNumberedHeading`). -/

/-- The class `[:\.\s]` of `r'^Chapter\s+\d+[:\.\s]+(.+)$'` and friends. -/
def isSepClassB (c : Char) : Bool := c = ':' || c = '.' || isSpaceB c

/-- Compiled form of `r'^<lit>\s+\d+[:\.\s]+(.+)$'` (`lit` one of
`Chapter`, `CHAPTER`, `Section`, `SECTION`).  `\s+` and `\d+` are maximal
runs (their successors are disjoint classes); the greedy `[:\.\s]+`
followed by `(.+)$` matches the longest class run that leaves at least one
character for the capture, so the capture is everything after
`min (maximal class run) (length - 1)` characters, provided that is ≥ 1. -/
def matchNumberedHeading (lit : List Char) (l : List Char) : Option (List Char) :=
  if lit.isPrefixOf l then
    let r0 := l.drop lit.length
    let sp := r0.takeWhile isSpaceB
    if sp = [] then none
    else
      let r1 := r0.drop sp.length
      let dg := r1.takeWhile isDigitB
      if dg = [] then none
      else
        let r2 := r1.drop dg.length
        let uLen := min (r2.takeWhile isSepClassB).length (r2.length - 1)
        if 1 ≤ uLen then some (r2.drop uLen) else none
  else none

/-- Compiled form of `r'^\d+\.\s+([A-Z][A-Za-z\s]{3,50})$'`. -/
def matchNumDot (l : List Char) : Option (List Char) :=
  let dg := l.takeWhile isDigitB
  if dg = [] then none
  else
    match l.drop dg.length with
    | '.' :: rest =>
      let sp := rest.takeWhile isSpaceB
      if sp = [] then none
      else
        match rest.drop sp.length with
        | c :: r =>
          if isUpperB c && 3 ≤ r.length && r.length ≤ 50
              && r.all (fun x => isAlphaB x || isSpaceB x) then
            some (c :: r)
          else none
        | [] => none
    | _ => none

/-- Compiled form of `r'^([A-Z][A-Z\s]{3,50})$'` (ALL CAPS headers). -/
def matchAllCaps (l : List Char) : Option (List Char) :=
  match l with
  | c :: r =>
    if isUpperB c && 3 ≤ r.length && r.length ≤ 50
        && r.all (fun x => isUpperB x || isSpaceB x) then
      some l
    else none
  | [] => none

/-- The inner `for pattern in patterns` loop of `_detect_chapter`: the six
patterns tried in priority order on one (already stripped) line. -/
def tryPatterns (l : List Char) : Option (List Char) :=
  (matchNumberedHeading ("Chapter".data) l).orElse fun _ =>
  (matchNumberedHeading ("CHAPTER".data) l).orElse fun _ =>
  (matchNumberedHeading ("Section".data) l).orElse fun _ =>
  (matchNumberedHeading ("SECTION".data) l).orElse fun _ =>
  (matchNumDot l).orElse fun _ =>
  matchAllCaps l

/-- One iteration of the outer `for line in lines[:5]` loop: strip the
line, skip it when its length is outside `[3, 100]`, otherwise try the six
patterns. -/
def lineCapture (line : List Char) : Option (List Char) :=
  let t := stripL line
  if 100 < t.length || t.length < 3 then none
  else tryPatterns t

/-- Cleanup applied to a successful capture:
`match.group(1).strip()` then `re.sub(r'\s+', ' ', chapter_name)`. -/
def cleanCapture (cap : List Char) : String := ⟨collapseWsL (stripL cap)⟩

/-- `PDFParser._detect_chapter`: scan the first 5 lines; on the first line
where a pattern matches, return the cleaned capture; otherwise `none`. -/
def detectChapter (text : String) : Option String :=
  (((splitLinesNl text.data).take 5).findSome? lineCapture).map cleanCapture

/-! ## `PDFParser._split_text` -/

/-- Python `re.split(r'(?<=[.!?])\s+', text)`: split at each maximal
whitespace run whose preceding character is `.`, `!` or `?`, dropping the
matched whitespace and keeping (possibly empty) pieces.  `cur` is the
current piece, reversed, so the lookbehind character is its head; `skip`
is set while consuming the whitespace run of a match (during which no new
match can start, since the preceding character is then whitespace). -/
def headIsPunct : List Char → Bool
  | [] => false
  | c :: _ => c = '.' || c = '!' || c = '?'

def sentSplitGo (cur : List Char) (skip : Bool) : List Char → List (List Char)
  | [] => [cur.reverse]
  | c :: rest =>
    if skip then
      if isSpaceB c then sentSplitGo [] true rest
      else sentSplitGo [c] false rest
    else
      if isSpaceB c && headIsPunct cur then cur.reverse :: sentSplitGo [] true rest
      else sentSplitGo (c :: cur) false rest

def splitSentences (l : List Char) : List (List Char) := sentSplitGo [] false l

/-- The sentence-accumulation loop of `_split_text`.  `cur` is
`current_chunk`, `chunks` the accumulator; on overflow the closed chunk is
stripped and appended, and the new chunk is seeded with the trailing 20
words (when the closed chunk had more than 20 words) followed by a space
and the overflowing sentence. -/
def splitLoop (chunkSize : Nat) : List (List Char) → List Char → List (List Char) → List (List Char)
  | [], cur, chunks => if stripL cur = [] then chunks else chunks ++ [stripL cur]
  | s :: rest, cur, chunks =>
    if chunkSize < cur.length + s.length && cur ≠ [] then
      let ws := pyWordsL cur
      let ov := if 20 < ws.length then joinSp (ws.drop (ws.length - 20)) else []
      splitLoop chunkSize rest (ov ++ ' ' :: s) (chunks ++ [stripL cur])
    else splitLoop chunkSize rest (cur ++ ' ' :: s) chunks

/-- `PDFParser._split_text(text, chunk_size, overlap)`: normalize
whitespace, strip, split into sentence-like pieces, then greedily
accumulate them into chunks of at most roughly `chunk_size` characters
(the `overlap` parameter of the source is unused by its body: the overlap
is hard-coded to the trailing 20 words). -/
def splitText (chunkSize : Nat) (text : String) : List String :=
  (splitLoop chunkSize (splitSentences (stripL (collapseWsL text.data))) [] []).map
    fun l => ⟨l⟩

/-! ## `PDFParser.extract_chunks_with_metadata` -/

structure ChunkMeta where
  source : String
  chapter : String
  page : Nat
deriving DecidableEq, Repr

structure DocumentChunk where
  text : String
  metadata : ChunkMeta
deriving DecidableEq, Repr

/-- The per-page loop of `extract_chunks_with_metadata`.  Pages are the
outputs of the external text-extraction capability (`page.extract_text()`
may return `None`, modelled as `none`).  A page is skipped when its text
is missing, empty, or strips to fewer than 50 characters.  A detected
chapter updates the current chapter only when it is a non-empty string
(Python truthiness of `detected_chapter`). -/
def extractGo (pdfPath : String) : List (Option String) → Nat → String →
    List DocumentChunk → List DocumentChunk
  | [], _, _, acc => acc
  | text? :: rest, pageNum, cur, acc =>
    match text? with
    | none => extractGo pdfPath rest (pageNum + 1) cur acc
    | some text =>
      if text = "" || (stripL text.data).length < 50 then
        extractGo pdfPath rest (pageNum + 1) cur acc
      else
        let cur' := match detectChapter text with
          | some c => if c = "" then cur else c
          | none => cur
        let pageChunks := (splitText 800 text).filter
          fun c => 100 < (stripL c.data).length
        let newChunks := pageChunks.map
          fun c => DocumentChunk.mk c (ChunkMeta.mk pdfPath cur' pageNum)
        extractGo pdfPath rest (pageNum + 1) cur' (acc ++ newChunks)

/-- `PDFParser.extract_chunks_with_metadata`, with the external PDF
backend abstracted to the per-page extracted texts.  Page numbering starts
at 1 and the initial current chapter is `"Introduction"`. -/
def extractChunks (pdfPath : String) (pages : List (Option String)) : List DocumentChunk :=
  extractGo pdfPath pages 1 "Introduction" []

/-! ## `VectorStore` (src/vector_store.py)

The ChromaDB collection is modelled as the ordered list of records it
holds: one `(id, embedding, document, metadata)` tuple per added chunk,
exactly the four parallel arguments of `collection.add`.  The embedding
model is an external capability, abstracted as a batched function
`List String → List E` for an arbitrary embedding type `E`; the calls made
to it are returned alongside the new state so that "no embedding is
computed" is expressible. -/

structure VSEntry (E : Type) where
  id : String
  embedding : E
  document : String
  metadata : ChunkMeta
deriving DecidableEq

structure Collection (E : Type) where
  entries : List (VSEntry E)
deriving DecidableEq

def emptyCollection (E : Type) : Collection E := ⟨[]⟩

/-- Zip the four parallel lists of `collection.add` into records (they
have equal lengths whenever the embedding capability returns one vector
per input text). -/
def mkRows (E : Type) : List String → List E → List String → List ChunkMeta → List (VSEntry E)
  | id :: ids, e :: es, t :: ts, m :: ms => ⟨id, e, t, m⟩ :: mkRows E ids es ts ms
  | _, _, _, _ => []

/-- The `for i in range(0, len(chunks), batch_size)` write loop of
`add_documents` with `batch_size = 100`: each iteration writes the next
slice of 100 records.  The loop runs `⌈n/100⌉ ≤ n` iterations, so fuel
`n` (the row count) makes the recursion structural without changing the
result. -/
def batchLoopF (E : Type) : Nat → Collection E → List (VSEntry E) → Collection E
  | 0, col, _ => col
  | _ + 1, col, [] => col
  | n + 1, col, rows => batchLoopF E n ⟨col.entries ++ rows.take 100⟩ (rows.drop 100)

/-- `VectorStore.add_documents`: no-op on an empty chunk list; otherwise
embed all texts in one batched call and write the records in batches of
100.  The ids are `chunk_0`, `chunk_1`, … for this call.  Returns the new
collection together with the list of batched embedding calls made. -/
def addDocuments (E : Type) (embed : List String → List E) (col : Collection E)
    (chunks : List DocumentChunk) : Collection E × List (List String) :=
  if chunks = [] then (col, [])
  else
    let texts := chunks.map (·.text)
    let metadatas := chunks.map (·.metadata)
    let ids := (List.range chunks.length).map fun i => "chunk_" ++ Nat.repr i
    let embeddings := embed texts
    let rows := mkRows E ids embeddings texts metadatas
    (batchLoopF E rows.length col rows, [texts])

structure VSStats where
  totalChunks : Nat
  uniqueChapters : Nat
  chapters : List String
deriving DecidableEq, Repr

/-- Code-point lexicographic `≤` on character lists: exactly Python's
string comparison order. -/
def lexLe : List Char → List Char → Bool
  | [], _ => true
  | _ :: _, [] => false
  | a :: as, b :: bs => if a < b then true else if b < a then false else lexLe as bs

def strLeB (a b : String) : Bool := lexLe a.data b.data

/-- Python `sorted` on a list of strings: a stable sort by code-point
lexicographic order (modelled by insertion sort, which is stable and
agrees with any stable sort; the stats input is deduplicated anyway). -/
def sortStrings (l : List String) : List String :=
  l.insertionSort fun a b => strLeB a b = true

/-- `VectorStore.get_collection_stats`: the collection count, the number
of distinct chapter values among the stored metadata, and the sorted list
of those distinct values.  (`meta.get('chapter', 'Unknown')` is the
`chapter` field: every stored metadata record has one; and the
`if all_items['metadatas']` guard agrees with the formula on the empty
collection, where the chapter set is empty either way.) -/
def getCollectionStats (E : Type) (col : Collection E) : VSStats :=
  let chapterSet := (col.entries.map (·.metadata.chapter)).dedup
  { totalChunks := col.entries.length
    uniqueChapters := chapterSet.length
    chapters := sortStrings chapterSet }

/-! ## A small backtracking regex engine

Used for the two `re.search` patterns of
`QuerySystem._extract_chapter_mention`.  `mrun` returns the list of
possible remainders of the input after a match of the regex, in Python's
backtracking priority order: the first alternative of `alt` before the
second, and for the greedy `star`, more iterations before fewer.  The
fuel argument bounds recursion depth; every quantified subexpression of
the patterns below consumes at least one character per iteration, so a
fuel linear in the input length is sufficient and the generous fuel used
in `searchCapture` never runs out on them. -/

inductive Rx where
  | eps : Rx
  | cls : (Char → Bool) → Rx
  | cat : Rx → Rx → Rx
  | alt : Rx → Rx → Rx
  | star : Rx → Rx

def mrun : Nat → Rx → List Char → List (List Char)
  | 0, _, _ => []
  | _ + 1, .eps, s => [s]
  | _ + 1, .cls _, [] => []
  | _ + 1, .cls p, c :: s => if p c then [s] else []
  | fuel + 1, .cat r1 r2, s => (mrun fuel r1 s).flatMap (mrun fuel r2)
  | fuel + 1, .alt r1 r2, s => mrun fuel r1 s ++ mrun fuel r2 s
  | fuel + 1, .star r, s =>
    ((mrun fuel r s).flatMap fun s2 => mrun fuel (.star r) s2) ++ [s]

/-- Greedy `r?`. -/
def Rx.opt (r : Rx) : Rx := .alt r .eps

/-- Greedy `r+`. -/
def Rx.plus (r : Rx) : Rx := .cat r (.star r)

/-- A literal character under `re.IGNORECASE` (the argument is given
lowercase). -/
def Rx.ciChar (c : Char) : Rx := .cls fun x => lowerC x = c

/-- A literal word under `re.IGNORECASE`. -/
def Rx.ciWord (s : String) : Rx :=
  s.data.foldr (fun c acc => .cat (Rx.ciChar c) acc) .eps

/-- `[A-Z]` and `[a-z]` under `re.IGNORECASE` both match any ASCII
letter. -/
def Rx.ciLetter : Rx := .cls isAlphaB

/-- Try to match `pre`, then the single capture group `grp`, then `suf`
at the start of `s`; when `anchoredEnd` is set the match must consume the
whole input (a trailing `$`).  Returns the slice matched by the group for
the first `(rem1, rem2)` in backtracking priority order for which the
suffix can complete — exactly the group Python's engine reports, since
suffix choices come later in the backtracking order than group choices
and do not affect the captured slice. -/
def matchCaptureAt (fuel : Nat) (pre grp suf : Rx) (anchoredEnd : Bool)
    (s : List Char) : Option (List Char) :=
  (mrun fuel pre s).findSome? fun rem1 =>
    (mrun fuel grp rem1).findSome? fun rem2 =>
      let sufRes := mrun fuel suf rem2
      if (if anchoredEnd then sufRes.contains [] else !sufRes.isEmpty) then
        some (rem1.take (rem1.length - rem2.length))
      else none

/-- `re.search`: try the pattern at each start position from the left;
the first position with a match wins. -/
def searchCaptureGo (fuel : Nat) (pre grp suf : Rx) : List Char → Option (List Char)
  | [] => matchCaptureAt fuel pre grp suf false []
  | s@(_ :: t) =>
    (matchCaptureAt fuel pre grp suf false s).orElse fun _ =>
      searchCaptureGo fuel pre grp suf t

def searchCapture (pre grp suf : Rx) (s : List Char) : Option (List Char) :=
  searchCaptureGo (16 * s.length + 64) pre grp suf s

/-! ## `QuerySystem._extract_chapter_mention` (src/query_system.py)

The two fallback patterns, searched with `re.IGNORECASE`:
`r'in (?:the )?([A-Z][a-z]+(?: [A-Z][a-z]+)*) (?:chapter|section)'` and
`r'(?:chapter|section) (?:on |about )?([A-Z][a-z]+(?: [A-Z][a-z]+)*)'`.
Under `IGNORECASE` the classes `[A-Z]` and `[a-z]` both match any ASCII
letter. -/

/-- The shared capture group `([A-Z][a-z]+(?: [A-Z][a-z]+)*)`. -/
def mentionGroup : Rx :=
  .cat Rx.ciLetter (.cat (Rx.plus Rx.ciLetter)
    (.star (.cat (.cls fun c => c = ' ') (.cat Rx.ciLetter (Rx.plus Rx.ciLetter)))))

def mentionPat1Pre : Rx := .cat (Rx.ciWord "in ") (Rx.opt (Rx.ciWord "the "))

def mentionPat1Suf : Rx :=
  .cat (.cls fun c => c = ' ') (.alt (Rx.ciWord "chapter") (Rx.ciWord "section"))

def mentionPat2Pre : Rx :=
  .cat (.alt (Rx.ciWord "chapter") (Rx.ciWord "section"))
    (.cat (.cls fun c => c = ' ') (Rx.opt (.alt (Rx.ciWord "on ") (Rx.ciWord "about "))))

/-- One iteration of the `for pattern in patterns` loop: search the query,
and on a match title-case the stripped capture and return the first known
chapter equal to it case-insensitively; otherwise (no match, or no chapter
equal to the capture) fall through. -/
def tryMentionPat (pre suf : Rx) (query : String) (availableChapters : List String) :
    Option String :=
  match searchCapture pre mentionGroup suf query.data with
  | some cap =>
    let potential := titleL (stripL cap)
    availableChapters.find? fun ch => lowerL ch.data = lowerL potential
  | none => none

/-- The first loop of `_extract_chapter_mention`: return the first known
chapter whose lowercasing is a substring of the lowercased query. -/
def firstSubstrChapter (availableChapters : List String) (queryLower : List Char) :
    Option String :=
  match availableChapters with
  | [] => none
  | ch :: rest =>
    if hasInfix queryLower (lowerL ch.data) then some ch
    else firstSubstrChapter rest queryLower

/-- The body of `QuerySystem._extract_chapter_mention` after the stats
call, taking the available chapter list it returned. -/
def extractChapterMentionCore (availableChapters : List String) (query : String) :
    Option String :=
  match firstSubstrChapter availableChapters (lowerL query.data) with
  | some c => some c
  | none =>
    match tryMentionPat mentionPat1Pre mentionPat1Suf query availableChapters with
    | some c => some c
    | none => tryMentionPat mentionPat2Pre Rx.eps query availableChapters

/-- `QuerySystem._extract_chapter_mention`: the available chapters are the
(sorted, deduplicated) `chapters` list of the collection stats. -/
def extractChapterMention (E : Type) (col : Collection E) (query : String) :
    Option String :=
  extractChapterMentionCore (getCollectionStats E col).chapters query

/-! ## `LLMInterface.generate_answer` (src/llm_interface.py)

The Groq chat-completion call is an external capability; its outcome is a
parameter: either the generated text or the exception message (`str(e)`).
Wall-clock time is not in the embedding's domain, so the elapsed time of
the non-short-circuit path is a parameter as well; the short-circuit
branch returns the literal `0.0` of the source.  The second component of
the result is the list of `(system, user)` message pairs sent to the
capability, so that "no call is made" and "before any prompt is built" are
expressible. -/

inductive GenOutcome where
  | ok : String → GenOutcome
  | err : String → GenOutcome

structure LLMResult where
  answer : String
  generationTime : Nat
  contextUsed : List String
  modelName : String
deriving DecidableEq

def insufficientInfoAnswer : String :=
  "I don't have enough information to answer that question. The retrieved context doesn't contain relevant information."

def llmSystemPrompt : String :=
  "You are a helpful technical support assistant. Your job is to answer questions about a technical manual based ONLY on the provided context.\n\nIMPORTANT RULES:\n1. Answer ONLY based on the context provided\n2. If the context doesn't contain the answer, say \"I don't have enough information in the manual to answer that question.\"\n3. DO NOT make up information or use knowledge outside the provided context\n4. Be concise and specific\n5. Reference the chapter or section when relevant\n6. If multiple sources are provided, synthesize the information clearly"

/-- `LLMInterface._build_context`: number the chunk/metadata pairs from 1
and format each as `[Source i - Chapter: <chapter>, Page: <page>]\n<text>`
(`zip` stops at the shorter list). -/
def buildContextGo (i : Nat) : List String → List ChunkMeta → List String
  | chunk :: cs, meta :: ms =>
    ("[Source " ++ Nat.repr i ++ " - Chapter: " ++ meta.chapter ++ ", Page: "
      ++ Nat.repr meta.page ++ "]\n" ++ chunk) :: buildContextGo (i + 1) cs ms
  | _, _ => []

def buildContext (chunks : List String) (metadatas : List ChunkMeta) : String :=
  String.intercalate "\n\n---\n\n" (buildContextGo 1 chunks metadatas)

def llmUserPrompt (query context : String) : String :=
  "CONTEXT FROM MANUAL:\n" ++ context ++ "\n\nUSER QUESTION: " ++ query
    ++ "\n\nPlease answer based only on the context above."

/-- `LLMInterface.generate_answer`: with no context chunks, return the
fixed insufficient-information answer with generation time `0.0` and no
capability call; otherwise build the context and messages, invoke the
capability once, and on an exception produce the synthetic
`"Error generating answer: …"` answer instead of propagating. -/
def generateAnswer (modelName query : String) (contextChunks : List String)
    (metadatas : List ChunkMeta) (gen : GenOutcome) (elapsed : Nat) :
    LLMResult × List (String × String) :=
  if contextChunks = [] then
    ({ answer := insufficientInfoAnswer, generationTime := 0, contextUsed := []
       modelName }, [])
  else
    let context := buildContext contextChunks metadatas
    let message := (llmSystemPrompt, llmUserPrompt query context)
    let answer := match gen with
      | .ok t => (⟨stripL t.data⟩ : String)
      | .err e => "Error generating answer: " ++ e
    ({ answer, generationTime := elapsed, contextUsed := contextChunks
       modelName }, [message])

/-! ## `QuerySystem.answer_question` (src/query_system.py)

The vector search is an external capability, so its results enter as a
parameter; the chapter filter is computed from the collection as in the
source, and the LLM step is `generateAnswer` above. -/

structure SearchResults where
  documents : List String
  metadatas : List ChunkMeta
  retrievalTime : Nat
deriving DecidableEq

structure QAResult where
  query : String
  answer : String
  retrievalTime : Nat
  generationTime : Nat
  totalTime : Nat
  sources : List ChunkMeta
  chapterFilter : Option String
deriving DecidableEq

def answerQuestion (E : Type) (col : Collection E) (modelName query : String)
    (searchResults : SearchResults) (gen : GenOutcome) (genElapsed : Nat) : QAResult :=
  let chapterFilter := extractChapterMention E col query
  let llm := generateAnswer modelName query searchResults.documents
    searchResults.metadatas gen genElapsed
  { query
    answer := llm.1.answer
    retrievalTime := searchResults.retrievalTime
    generationTime := llm.1.generationTime
    totalTime := searchResults.retrievalTime + llm.1.generationTime
    sources := searchResults.metadatas
    chapterFilter }

/-! ## Concrete inputs for the scenario theorems and witnesses -/

/-- A stub embedding capability: one (trivial) vector per input text. -/
def embedW : List String → List Nat := fun ts => ts.map fun _ => 0

/-- 400 characters of prose (40 ten-character sentences). -/
def prose400 : String := String.join (List.replicate 40 "aaaa bbb. ")

def page1 : String := "CHAPTER 1: INTRO\n" ++ prose400

def page2 : String := "Chapter 2: Setup\n" ++ prose400

/-- A page whose ALL-CAPS heading line precedes its `Chapter 2: Setup`
line among the first 5 lines. -/
def c1Page : String := "INSTALLATION GUIDE\nChapter 2: Setup\nThe body of the page follows."

/-- The same two heading lines with the `Chapter 2: Setup` line first. -/
def c1PageChapterFirst : String :=
  "Chapter 2: Setup\nINSTALLATION GUIDE\nThe body of the page follows."

def pageW : String := "SETUP GUIDE\n" ++ String.join (List.replicate 15 "aaaa bbb. ")

def c4ChunkW : DocumentChunk :=
  (extractChunks "m.pdf" [some pageW]).headD ⟨"", ⟨"", "", 0⟩⟩

/-- 960 characters: enough to overflow one 800-character chunk. -/
def c5text : String := String.join (List.replicate 60 "aa bb cc dd ee. ")

def chunksW : List DocumentChunk :=
  [⟨"chunk one text body", ⟨"m.pdf", "Troubleshooting", 3⟩⟩,
   ⟨"chunk two text body", ⟨"m.pdf", "Installation", 1⟩⟩]

def colW : Collection Nat := (addDocuments Nat embedW (emptyCollection Nat) chunksW).1

def srW : SearchResults := ⟨["a context chunk"], [⟨"m.pdf", "Intro", 1⟩], 5⟩

/-! # Theorems -/

/-- Helper: `findSome?` skips a block of elements on which the function
returns `none`. -/
theorem findSome?_append_of_none {α β : Type} (f : α → Option β) :
    ∀ (l1 l2 : List α), (∀ x ∈ l1, f x = none) →
      (l1 ++ l2).findSome? f = l2.findSome? f := by
  intro l1
  induction l1 with
  | nil => intro l2 _; rfl
  | cons a t ih =>
    intro l2 h
    simp only [List.cons_append, List.findSome?_cons]
    rw [h a (by simp)]
    exact ih l2 fun x hx => h x (by simp [hx])

/-- C1 (amended): heading detection scans the first 5 lines in order and
returns the (cleaned) capture of the first line on which any pattern
matches, trying the patterns in priority order within each line.  In
particular, when the `"Chapter N: <name>"` line is the first of the first
5 lines that matches any pattern — every earlier line being skipped or
matching no pattern — the `Chapter` pattern's captured name is returned,
regardless of any ALL-CAPS line that comes later. -/
theorem c1_heading_first_matching_line (text : String) (pre post : List (List Char))
    (ln cap : List Char)
    (hsplit : (splitLinesNl text.data).take 5 = pre ++ ln :: post)
    (hpre : ∀ l ∈ pre, lineCapture l = none)
    (hlo : 3 ≤ (stripL ln).length) (hhi : (stripL ln).length ≤ 100)
    (hmatch : matchNumberedHeading ("Chapter".data) (stripL ln) = some cap) :
    detectChapter text = some (cleanCapture cap) := by
  unfold detectChapter
  rw [hsplit, findSome?_append_of_none _ pre _ hpre]
  have hlc : lineCapture ln = some cap := by
    unfold lineCapture
    have hcond : ¬(100 < (stripL ln).length || (stripL ln).length < 3) := by
      simp only [Bool.or_eq_true, decide_eq_true_eq, not_or]
      omega
    rw [if_neg hcond]
    unfold tryPatterns
    rw [hmatch]
    rfl
  simp [List.findSome?_cons, hlc]

/-- C1 witness: on a page whose `Chapter 2: Setup` line precedes the
ALL-CAPS line, the theorem applies and detection returns `"Setup"`. -/
theorem c1_heading_first_matching_line_witness :
    ((splitLinesNl c1PageChapterFirst.data).take 5
        = [] ++ ("Chapter 2: Setup".data)
            :: [("INSTALLATION GUIDE".data), ("The body of the page follows.".data)]
      ∧ 3 ≤ (stripL ("Chapter 2: Setup".data)).length
      ∧ (stripL ("Chapter 2: Setup".data)).length ≤ 100
      ∧ matchNumberedHeading ("Chapter".data) (stripL ("Chapter 2: Setup".data))
          = some ("Setup".data))
    ∧ detectChapter c1PageChapterFirst = some (cleanCapture ("Setup".data)) :=
  ⟨⟨by decide, by decide, by decide, by decide⟩,
    c1_heading_first_matching_line c1PageChapterFirst []
      [("INSTALLATION GUIDE".data), ("The body of the page follows.".data)]
      ("Chapter 2: Setup".data) ("Setup".data)
      (by decide) (by simp) (by decide) (by decide) (by decide)⟩

/-- C1 counterexample: `c1Page`'s first 5 lines contain both an ALL-CAPS
heading line and a `"Chapter 2: Setup"` line (whose `Chapter`-pattern
capture is `"Setup"`), yet heading detection returns
`"INSTALLATION GUIDE"`, the capture of the earlier ALL-CAPS line — the
claim's "regardless of which of the two lines comes first" fails. -/
theorem c1_allcaps_line_first_counterexample :
    (matchAllCaps (stripL ("INSTALLATION GUIDE".data))).isSome = true
    ∧ ("INSTALLATION GUIDE".data) ∈ (splitLinesNl c1Page.data).take 5
    ∧ ("Chapter 2: Setup".data) ∈ (splitLinesNl c1Page.data).take 5
    ∧ (matchNumberedHeading ("Chapter".data) (stripL ("Chapter 2: Setup".data))).map
        cleanCapture = some "Setup"
    ∧ detectChapter c1Page = some "INSTALLATION GUIDE"
    ∧ ("INSTALLATION GUIDE" : String) ≠ "Setup" := by
  refine ⟨by decide, by decide, by decide, by decide, by decide, by decide⟩

/-- C2 counterexample: on page 1 text `"CHAPTER 1: INTRO\n<400 chars>"`
and page 2 text `"Chapter 2: Setup\n<400 chars>"`, extraction does yield
2 chunks, but their chapters are `["INTRO", "Setup"]` — the captured name
is kept verbatim (`"INTRO"`), never title-cased to `"Intro"`, so the
claimed chapter multiset `{"Intro", "Setup"}` is wrong in either order. -/
theorem c2_chapter_case_counterexample :
    (extractChunks "data/manual.pdf" [some page1, some page2]).length = 2
    ∧ (extractChunks "data/manual.pdf" [some page1, some page2]).map
        (·.metadata.chapter) ≠ ["Intro", "Setup"]
    ∧ (extractChunks "data/manual.pdf" [some page1, some page2]).map
        (·.metadata.chapter) ≠ ["Setup", "Intro"] := by
  refine ⟨by decide, by decide, by decide⟩

/-- C2 (amended): the end-to-end scenario yields exactly 2 chunks with
chapters `"INTRO"` and `"Setup"` (the `CHAPTER`-pattern capture is kept in
its original casing), and after ingesting them the collection stats report
`unique_chapters = 2`. -/
theorem c2_end_to_end_amended :
    (extractChunks "data/manual.pdf" [some page1, some page2]).length = 2
    ∧ (extractChunks "data/manual.pdf" [some page1, some page2]).map
        (·.metadata.chapter) = ["INTRO", "Setup"]
    ∧ (getCollectionStats Nat (addDocuments Nat embedW (emptyCollection Nat)
        (extractChunks "data/manual.pdf" [some page1, some page2])).1).uniqueChapters
        = 2 := by
  refine ⟨by decide, by decide, by decide⟩

/-- C3: with an empty list of retrieved context chunks, `generate_answer`
returns the fixed insufficient-information answer with generation time
exactly 0 and makes no call to the generation capability (the call log is
empty, and the result does not depend on the capability outcome or on the
metadata: the short-circuit happens before any prompt is built). -/
theorem c3_empty_context_short_circuit (modelName query : String)
    (metas : List ChunkMeta) (gen : GenOutcome) (elapsed : Nat) :
    (generateAnswer modelName query [] metas gen elapsed).1.answer = insufficientInfoAnswer
    ∧ (generateAnswer modelName query [] metas gen elapsed).1.generationTime = 0
    ∧ (generateAnswer modelName query [] metas gen elapsed).2 = []
    ∧ ∀ (gen' : GenOutcome) (metas' : List ChunkMeta),
        generateAnswer modelName query [] metas gen elapsed
          = generateAnswer modelName query [] metas' gen' elapsed :=
  ⟨rfl, rfl, rfl, fun _ _ => rfl⟩

/-- C7: with non-empty retrieved context, a generation-capability failure
is caught: `generate_answer` returns normally with an answer embedding the
error message, and the query pipeline (`answer_question`) still returns a
complete result object carrying that answer. -/
theorem c7_generation_error_recovered (E : Type) (col : Collection E)
    (modelName query : String) (sr : SearchResults) (e : String) (elapsed : Nat)
    (h : sr.documents ≠ []) :
    (generateAnswer modelName query sr.documents sr.metadatas (.err e) elapsed).1.answer
      = "Error generating answer: " ++ e
    ∧ (answerQuestion E col modelName query sr (.err e) elapsed).answer
      = "Error generating answer: " ++ e := by
  unfold answerQuestion generateAnswer
  simp [h]

/-- C7 witness: a concrete one-chunk retrieval with a failing generation
capability. -/
theorem c7_generation_error_recovered_witness :
    srW.documents ≠ []
    ∧ ((generateAnswer "llama-3.1-8b-instant" "why?" srW.documents srW.metadatas
          (.err "rate limited") 7).1.answer = "Error generating answer: " ++ "rate limited"
      ∧ (answerQuestion Nat (emptyCollection Nat) "llama-3.1-8b-instant" "why?" srW
          (.err "rate limited") 7).answer = "Error generating answer: " ++ "rate limited") :=
  ⟨by decide,
    c7_generation_error_recovered Nat (emptyCollection Nat) "llama-3.1-8b-instant"
      "why?" srW "rate limited" 7 (by decide)⟩

/-- C9: ingesting an empty chunk list returns normally, leaves the
collection unchanged and makes no embedding call. -/
theorem c9_ingest_empty_noop (E : Type) (embed : List String → List E)
    (col : Collection E) :
    addDocuments E embed col [] = (col, []) := rfl

/-- Helper: a chapter found by the substring loop is a known chapter whose
lowercasing occurs in the lowercased query. -/
theorem firstSubstrChapter_mem_match :
    ∀ (l : List String) (q : List Char) (c : String),
      firstSubstrChapter l q = some c →
      c ∈ l ∧ hasInfix q (lowerL c.data) = true := by
  intro l
  induction l with
  | nil => intro q c h; simp [firstSubstrChapter] at h
  | cons a t ih =>
    intro q c h
    unfold firstSubstrChapter at h
    by_cases hc : hasInfix q (lowerL a.data) = true
    · rw [if_pos hc] at h
      cases h
      exact ⟨by simp, hc⟩
    · rw [if_neg hc] at h
      obtain ⟨h1, h2⟩ := ih q c h
      exact ⟨by simp [h1], h2⟩

/-- C6: chapter inference tries its steps in order with first success
winning: when the substring loop finds a chapter it is returned (and it is
a known chapter occurring, lowercased, in the lowercased query); only when
the substring loop fails is the result that of the two regex patterns
tried in order; when those also fail the result is `none` (absence, not an
error).  On the spec's concrete example the inference returns
`"Troubleshooting"`. -/
theorem c6_inference_precedence (chapters : List String) (query : String) :
    (∀ c, firstSubstrChapter chapters (lowerL query.data) = some c →
        extractChapterMentionCore chapters query = some c
        ∧ c ∈ chapters ∧ hasInfix (lowerL query.data) (lowerL c.data) = true)
    ∧ (firstSubstrChapter chapters (lowerL query.data) = none →
        extractChapterMentionCore chapters query
          = match tryMentionPat mentionPat1Pre mentionPat1Suf query chapters with
            | some c => some c
            | none => tryMentionPat mentionPat2Pre Rx.eps query chapters)
    ∧ (firstSubstrChapter chapters (lowerL query.data) = none →
        tryMentionPat mentionPat1Pre mentionPat1Suf query chapters = none →
        tryMentionPat mentionPat2Pre Rx.eps query chapters = none →
        extractChapterMentionCore chapters query = none)
    ∧ extractChapterMentionCore ["Installation", "Troubleshooting"]
        "How do I fix things in the Troubleshooting section?" = some "Troubleshooting" := by
  refine ⟨?_, ?_, ?_, by decide⟩
  · intro c h
    obtain ⟨h1, h2⟩ := firstSubstrChapter_mem_match chapters (lowerL query.data) c h
    refine ⟨?_, h1, h2⟩
    unfold extractChapterMentionCore
    rw [h]
  · intro h
    unfold extractChapterMentionCore
    rw [h]
  · intro h h1 h2
    unfold extractChapterMentionCore
    rw [h, h1, h2]

/-- C6 witness: the substring branch fires on the spec's example, and the
all-fail branch returns `none` on a query with no chapter mention. -/
theorem c6_inference_precedence_witness :
    (firstSubstrChapter ["Installation", "Troubleshooting"]
        (lowerL "How do I fix things in the Troubleshooting section?".data)
        = some "Troubleshooting"
      ∧ extractChapterMentionCore ["Installation", "Troubleshooting"]
          "How do I fix things in the Troubleshooting section?" = some "Troubleshooting")
    ∧ (firstSubstrChapter [] (lowerL "hello".data) = none
      ∧ tryMentionPat mentionPat1Pre mentionPat1Suf "hello" [] = none
      ∧ tryMentionPat mentionPat2Pre Rx.eps "hello" [] = none
      ∧ extractChapterMentionCore [] "hello" = none) :=
  ⟨⟨by decide,
    ((c6_inference_precedence ["Installation", "Troubleshooting"]
        "How do I fix things in the Troubleshooting section?").1 "Troubleshooting"
        (by decide)).1⟩,
   ⟨by decide, by decide, by decide,
    (c6_inference_precedence [] "hello").2.2.1 (by decide) (by decide) (by decide)⟩⟩

/-- Helper: `lexLe` is reflexive. -/
theorem lexLe_refl : ∀ l : List Char, lexLe l l = true := by
  intro l
  induction l with
  | nil => rfl
  | cons a as ih =>
    simp only [lexLe, if_neg (lt_irrefl a)]
    exact ih

/-- Helper: `lexLe` is transitive. -/
theorem lexLe_trans : ∀ a b c : List Char,
    lexLe a b = true → lexLe b c = true → lexLe a c = true := by
  intro a
  induction a with
  | nil => intro b c _ _; rfl
  | cons x xs ih =>
    intro b c hab hbc
    cases b with
    | nil => simp [lexLe] at hab
    | cons y ys =>
      cases c with
      | nil => simp [lexLe] at hbc
      | cons z zs =>
        simp only [lexLe] at hab hbc ⊢
        rcases lt_trichotomy x y with hxy | rfl | hyx
        · rcases lt_trichotomy y z with hyz | rfl | hzy
          · rw [if_pos (lt_trans hxy hyz)]
          · rw [if_pos hxy]
          · rw [if_neg (lt_asymm hzy), if_pos hzy] at hbc
            exact absurd hbc Bool.false_ne_true
        · rw [if_neg (lt_irrefl x), if_neg (lt_irrefl x)] at hab
          rcases lt_trichotomy x z with hxz | rfl | hzx
          · rw [if_pos hxz]
          · rw [if_neg (lt_irrefl x), if_neg (lt_irrefl x)]
            rw [if_neg (lt_irrefl x), if_neg (lt_irrefl x)] at hbc
            exact ih ys zs hab hbc
          · rw [if_neg (lt_asymm hzx), if_pos hzx] at hbc
            exact absurd hbc Bool.false_ne_true
        · rw [if_neg (lt_asymm hyx), if_pos hyx] at hab
          exact absurd hab Bool.false_ne_true

/-- Helper: `lexLe` is total. -/
theorem lexLe_total : ∀ a b : List Char, lexLe a b = true ∨ lexLe b a = true := by
  intro a
  induction a with
  | nil => intro b; left; rfl
  | cons x xs ih =>
    intro b
    cases b with
    | nil => right; rfl
    | cons y ys =>
      simp only [lexLe]
      rcases lt_trichotomy x y with hxy | rfl | hyx
      · left; rw [if_pos hxy]
      · simp only [if_neg (lt_irrefl x)]
        exact ih ys
      · right; rw [if_pos hyx]

/-- Helper: on a `lexLe`-sorted chapter list, the substring loop returns
the lexicographically least chapter among those matching, as soon as one
matches. -/
theorem firstSubstrChapter_min (q : List Char) :
    ∀ l : List String, l.Pairwise (fun a b : String => strLeB a b = true) →
      ∀ c : String, c ∈ l → hasInfix q (lowerL c.data) = true →
        ∃ m, firstSubstrChapter l q = some m
          ∧ m ∈ l ∧ hasInfix q (lowerL m.data) = true
          ∧ ∀ d ∈ l, hasInfix q (lowerL d.data) = true → strLeB m d = true := by
  intro l
  induction l with
  | nil => intro _ c hc; simp at hc
  | cons a t ih =>
    intro hp c hc hm
    by_cases ha : hasInfix q (lowerL a.data) = true
    · refine ⟨a, ?_, by simp, ha, ?_⟩
      · unfold firstSubstrChapter
        rw [if_pos ha]
      · intro d hd _
        rcases List.mem_cons.mp hd with rfl | hd
        · exact lexLe_refl d.data
        · exact (List.pairwise_cons.mp hp).1 d hd
    · have hct : c ∈ t := by
        rcases List.mem_cons.mp hc with rfl | h
        · exact absurd hm ha
        · exact h
      obtain ⟨m, h1, h2, h3, h4⟩ := ih (List.pairwise_cons.mp hp).2 c hct hm
      refine ⟨m, ?_, by simp [h2], h3, ?_⟩
      · unfold firstSubstrChapter
        rw [if_neg ha]
        exact h1
      · intro d hd hdm
        rcases List.mem_cons.mp hd with rfl | hd
        · exact absurd hdm ha
        · exact h4 d hd hdm

/-- Helper: Python's `sorted` on strings yields a `lexLe`-sorted list. -/
theorem sortStrings_pairwise (l : List String) :
    (sortStrings l).Pairwise (fun a b : String => strLeB a b = true) := by
  haveI : IsTotal String fun a b : String => strLeB a b = true :=
    ⟨fun a b => lexLe_total a.data b.data⟩
  haveI : IsTrans String fun a b : String => strLeB a b = true :=
    ⟨fun a b c => lexLe_trans a.data b.data c.data⟩
  exact List.sorted_insertionSort _ l

/-- C10: the substring step of chapter inference is deterministic: the
known chapters are the sorted `chapters` list of the collection stats, so
whenever two (or more) distinct known chapters occur as substrings of the
lowercased query, inference returns the lexicographically smallest
matching chapter name (`strLeB` is code-point lexicographic order, the
order of Python string comparison). -/
theorem c10_substring_deterministic_min (E : Type) (col : Collection E)
    (query c1 c2 : String)
    (h1 : c1 ∈ (getCollectionStats E col).chapters)
    (h2 : c2 ∈ (getCollectionStats E col).chapters)
    (hm1 : hasInfix (lowerL query.data) (lowerL c1.data) = true)
    (hm2 : hasInfix (lowerL query.data) (lowerL c2.data) = true)
    (hne : c1 ≠ c2) :
    ∃ m, extractChapterMention E col query = some m
      ∧ m ∈ (getCollectionStats E col).chapters
      ∧ hasInfix (lowerL query.data) (lowerL m.data) = true
      ∧ ∀ d ∈ (getCollectionStats E col).chapters,
          hasInfix (lowerL query.data) (lowerL d.data) = true → strLeB m d = true := by
  have hp : ((getCollectionStats E col).chapters).Pairwise
      (fun a b : String => strLeB a b = true) :=
    sortStrings_pairwise _
  obtain ⟨m, hfind, hmem, hmatch, hmin⟩ :=
    firstSubstrChapter_min (lowerL query.data) _ hp c1 h1 hm1
  refine ⟨m, ?_, hmem, hmatch, hmin⟩
  unfold extractChapterMention extractChapterMentionCore
  rw [hfind]

/-- C10 witness: a two-chapter collection and a query mentioning both;
inference returns `"Installation"`, the smaller of the two. -/
theorem c10_substring_deterministic_min_witness :
    ("Installation" ∈ (getCollectionStats Nat colW).chapters
      ∧ "Troubleshooting" ∈ (getCollectionStats Nat colW).chapters
      ∧ hasInfix (lowerL "is installation or troubleshooting at fault?".data)
          (lowerL "Installation".data) = true
      ∧ hasInfix (lowerL "is installation or troubleshooting at fault?".data)
          (lowerL "Troubleshooting".data) = true
      ∧ ("Installation" : String) ≠ "Troubleshooting")
    ∧ ∃ m, extractChapterMention Nat colW "is installation or troubleshooting at fault?"
          = some m
        ∧ m ∈ (getCollectionStats Nat colW).chapters
        ∧ hasInfix (lowerL "is installation or troubleshooting at fault?".data)
            (lowerL m.data) = true
        ∧ ∀ d ∈ (getCollectionStats Nat colW).chapters,
            hasInfix (lowerL "is installation or troubleshooting at fault?".data)
              (lowerL d.data) = true → strLeB m d = true :=
  ⟨⟨by decide, by decide, by decide, by decide, by decide⟩,
    c10_substring_deterministic_min Nat colW
      "is installation or troubleshooting at fault?" "Installation" "Troubleshooting"
      (by decide) (by decide) (by decide) (by decide) (by decide)⟩

/-- Helper: the batched write loop appends all rows, in order, when given
at least as much fuel as there are rows. -/
theorem batchLoopF_entries (E : Type) :
    ∀ (fuel : Nat) (rows : List (VSEntry E)) (col : Collection E),
      rows.length ≤ fuel → (batchLoopF E fuel col rows).entries = col.entries ++ rows := by
  intro fuel
  induction fuel with
  | zero =>
    intro rows col h
    have hr : rows = [] := List.eq_nil_of_length_eq_zero (Nat.le_zero.mp h)
    subst hr
    simp [batchLoopF]
  | succ n ih =>
    intro rows col h
    match rows with
    | [] => simp [batchLoopF]
    | r :: rest =>
      have hstep : batchLoopF E (n + 1) col (r :: rest)
          = batchLoopF E n ⟨col.entries ++ (r :: rest).take 100⟩ ((r :: rest).drop 100) := rfl
      rw [hstep, ih]
      · show col.entries ++ (r :: rest).take 100 ++ (r :: rest).drop 100
          = col.entries ++ (r :: rest)
        rw [List.append_assoc, List.take_append_drop]
      · have hd : ((r :: rest).drop 100).length = (r :: rest).length - 100 :=
          List.length_drop 100 (r :: rest)
        simp only [List.length_cons] at h hd
        omega

/-- Helper: zipping the four parallel `collection.add` lists recovers the
metadata list, when lengths agree. -/
theorem mkRows_map_meta (E : Type) :
    ∀ (ids : List String) (es : List E) (ts : List String) (ms : List ChunkMeta),
      ids.length = ms.length → es.length = ms.length → ts.length = ms.length →
      (mkRows E ids es ts ms).map (·.metadata) = ms := by
  intro ids
  induction ids with
  | nil =>
    intro es ts ms h1 _ _
    simp only [List.length_nil] at h1
    have hms : ms = [] := List.eq_nil_of_length_eq_zero h1.symm
    subst hms
    rfl
  | cons i ids ih =>
    intro es ts ms h1 h2 h3
    cases ms with
    | nil => simp at h1
    | cons m ms =>
      cases es with
      | nil => simp at h2
      | cons e es =>
        cases ts with
        | nil => simp at h3
        | cons t ts =>
          simp only [List.length_cons] at h1 h2 h3
          simp only [mkRows, List.map_cons]
          rw [ih es ts ms (by omega) (by omega) (by omega)]

/-- C8: after ingesting N chunks whose chapter metadata takes C distinct
values into an empty collection, the stats report `total_chunks = N`,
`unique_chapters = C`, and `chapters` is the sorted (`lexLe`-ordered)
deduplicated list of those chapter values.  The hypothesis states that the
embedding capability returns one vector per input text. -/
theorem c8_stats_correct (E : Type) (embed : List String → List E)
    (chunks : List DocumentChunk)
    (hlen : (embed (chunks.map (·.text))).length = chunks.length) :
    (getCollectionStats E (addDocuments E embed (emptyCollection E) chunks).1).totalChunks
        = chunks.length
    ∧ (getCollectionStats E (addDocuments E embed (emptyCollection E) chunks).1).uniqueChapters
        = (chunks.map (·.metadata.chapter)).dedup.length
    ∧ ((getCollectionStats E (addDocuments E embed (emptyCollection E) chunks).1).chapters).Pairwise
        (fun a b : String => strLeB a b = true)
    ∧ ((getCollectionStats E (addDocuments E embed (emptyCollection E) chunks).1).chapters).Nodup
    ∧ ∀ c, c ∈ (getCollectionStats E (addDocuments E embed (emptyCollection E) chunks).1).chapters
        ↔ c ∈ chunks.map (·.metadata.chapter) := by
  by_cases hc : chunks = []
  · subst hc
    refine ⟨rfl, rfl, List.Pairwise.nil, List.nodup_nil, fun c => ?_⟩
    simp [addDocuments, getCollectionStats, emptyCollection, sortStrings]
  · have hents : ((addDocuments E embed (emptyCollection E) chunks).1).entries
        = mkRows E ((List.range chunks.length).map fun i => "chunk_" ++ Nat.repr i)
            (embed (chunks.map (·.text))) (chunks.map (·.text)) (chunks.map (·.metadata)) := by
      simp only [addDocuments, if_neg hc]
      rw [batchLoopF_entries E _ _ _ (le_refl _)]
      rfl
    have hmeta : ((addDocuments E embed (emptyCollection E) chunks).1).entries.map (·.metadata)
        = chunks.map (·.metadata) := by
      rw [hents]
      exact mkRows_map_meta E _ _ _ _ (by simp) (by simpa using hlen) (by simp)
    have hchap : ((addDocuments E embed (emptyCollection E) chunks).1).entries.map
        (·.metadata.chapter) = chunks.map (·.metadata.chapter) := by
      have h1 : ((addDocuments E embed (emptyCollection E) chunks).1).entries.map
          (·.metadata.chapter)
          = (((addDocuments E embed (emptyCollection E) chunks).1).entries.map
              (·.metadata)).map (·.chapter) := by
        rw [List.map_map]
        rfl
      have h2 : chunks.map (·.metadata.chapter)
          = (chunks.map (·.metadata)).map (·.chapter) := by
        rw [List.map_map]
        rfl
      rw [h1, hmeta, ← h2]
    have hcount : ((addDocuments E embed (emptyCollection E) chunks).1).entries.length
        = chunks.length := by
      have := congrArg List.length hmeta
      simpa using this
    refine ⟨?_, ?_, ?_, ?_, ?_⟩
    · show ((addDocuments E embed (emptyCollection E) chunks).1).entries.length = chunks.length
      exact hcount
    · show (((addDocuments E embed (emptyCollection E) chunks).1).entries.map
          (·.metadata.chapter)).dedup.length = (chunks.map (·.metadata.chapter)).dedup.length
      rw [hchap]
    · show (sortStrings (((addDocuments E embed (emptyCollection E) chunks).1).entries.map
          (·.metadata.chapter)).dedup).Pairwise (fun a b : String => strLeB a b = true)
      exact sortStrings_pairwise _
    · show (sortStrings (((addDocuments E embed (emptyCollection E) chunks).1).entries.map
          (·.metadata.chapter)).dedup).Nodup
      exact (List.perm_insertionSort _ _).nodup_iff.mpr (List.nodup_dedup _)
    · intro c
      show c ∈ sortStrings (((addDocuments E embed (emptyCollection E) chunks).1).entries.map
          (·.metadata.chapter)).dedup ↔ c ∈ chunks.map (·.metadata.chapter)
      rw [hchap]
      exact (List.mem_insertionSort _).trans (List.mem_dedup)

/-- Helper: the head of `dropWhile p` fails `p`. -/
theorem dropWhile_head_not (p : Char → Bool) (l : List Char) (c : Char)
    (h : (l.dropWhile p).head? = some c) : p c = false := by
  have hw := List.head?_dropWhile_not p l
  rw [h] at hw
  exact hw

/-- Helper: a list whose head fails `p` is unchanged by `dropWhile p`. -/
theorem dropWhile_eq_self_of_head (p : Char → Bool) (l : List Char)
    (h : ∀ c, l.head? = some c → p c = false) : l.dropWhile p = l := by
  cases l with
  | nil => rfl
  | cons a t =>
    have ha := h a rfl
    simp [List.dropWhile_cons, ha]

/-- Helper: a stripped list has no leading whitespace. -/
theorem stripL_no_lead (l : List Char) : (stripL l).dropWhile isSpaceB = stripL l := by
  unfold stripL
  apply dropWhile_eq_self_of_head
  intro c hc
  have hsplit : (l.dropWhile isSpaceB).reverse
      = (l.dropWhile isSpaceB).reverse.takeWhile isSpaceB
        ++ (l.dropWhile isSpaceB).reverse.dropWhile isSpaceB :=
    (List.takeWhile_append_dropWhile isSpaceB (l.dropWhile isSpaceB).reverse).symm
  have ha2 := congrArg List.reverse hsplit
  rw [List.reverse_reverse, List.reverse_append] at ha2
  have hhead : (l.dropWhile isSpaceB).head? = some c := by
    rw [ha2, List.head?_append, hc]
    rfl
  exact dropWhile_head_not isSpaceB l c hhead

/-- Helper: a stripped list has no trailing whitespace. -/
theorem stripL_rev_no_trail (l : List Char) :
    (stripL l).reverse.dropWhile isSpaceB = (stripL l).reverse := by
  unfold stripL
  rw [List.reverse_reverse]
  exact List.dropWhile_idempotent _ _

/-- Helper: Python `strip` is idempotent. -/
theorem stripL_idem (l : List Char) : stripL (stripL l) = stripL l := by
  show (((stripL l).dropWhile isSpaceB).reverse.dropWhile isSpaceB).reverse = stripL l
  rw [stripL_no_lead, stripL_rev_no_trail, List.reverse_reverse]

/-- Helper: every chunk emitted by the sentence-accumulation loop that is
not in the incoming accumulator is the strip of some string. -/
theorem splitLoop_mem (cs : Nat) :
    ∀ (ss : List (List Char)) (cur : List Char) (chunks : List (List Char)),
      ∀ c ∈ splitLoop cs ss cur chunks, c ∈ chunks ∨ ∃ x, c = stripL x := by
  intro ss
  induction ss with
  | nil =>
    intro cur chunks c hc
    unfold splitLoop at hc
    split at hc
    · exact Or.inl hc
    · rcases List.mem_append.mp hc with h1 | h1
      · exact Or.inl h1
      · simp only [List.mem_singleton] at h1
        exact Or.inr ⟨cur, h1⟩
  | cons s rest ih =>
    intro cur chunks c hc
    unfold splitLoop at hc
    split at hc
    · rcases ih _ _ c hc with h1 | h1
      · rcases List.mem_append.mp h1 with h2 | h2
        · exact Or.inl h2
        · simp only [List.mem_singleton] at h2
          exact Or.inr ⟨cur, h2⟩
      · exact Or.inr h1
    · exact ih _ _ c hc

/-- Helper: invariant of the page loop — assuming a non-empty current
chapter and a page number at least 1, every chunk it produces (beyond the
incoming accumulator) has trimmed text longer than 100 characters, a page
number at least 1 and a non-empty chapter. -/
theorem extractGo_wellformed (path : String) :
    ∀ (pages : List (Option String)) (pageNum : Nat) (cur : String)
      (acc : List DocumentChunk),
      1 ≤ pageNum → cur ≠ "" →
      (∀ ch ∈ acc, stripL ch.text.data = ch.text.data ∧ 100 < ch.text.length
        ∧ 1 ≤ ch.metadata.page ∧ ch.metadata.chapter ≠ "") →
      ∀ ch ∈ extractGo path pages pageNum cur acc,
        stripL ch.text.data = ch.text.data ∧ 100 < ch.text.length
        ∧ 1 ≤ ch.metadata.page ∧ ch.metadata.chapter ≠ "" := by
  intro pages
  induction pages with
  | nil =>
    intro pageNum cur acc _ _ hacc ch hch
    exact hacc ch hch
  | cons text? rest ih =>
    intro pageNum cur acc hpn hcur hacc ch hch
    cases text? with
    | none => exact ih (pageNum + 1) cur acc (by omega) hcur hacc ch hch
    | some text =>
      simp only [extractGo] at hch
      split at hch
      · exact ih (pageNum + 1) cur acc (by omega) hcur hacc ch hch
      · set cur' := (match detectChapter text with
          | some c => if c = "" then cur else c
          | none => cur) with hcurdef
        have hcur' : cur' ≠ "" := by
          rw [hcurdef]
          cases hdet : detectChapter text with
          | none => exact hcur
          | some c =>
            by_cases hce : c = ""
            · simp [hce, hcur]
            · simp [hce]
        refine ih (pageNum + 1) cur' _ (by omega) hcur' ?_ ch hch
        intro ch2 hch2
        rcases List.mem_append.mp hch2 with h1 | h1
        · exact hacc ch2 h1
        · obtain ⟨c, hcmem, rfl⟩ := List.mem_map.mp h1
          obtain ⟨hcsplit, hcfilter⟩ := List.mem_filter.mp hcmem
          obtain ⟨l, hlmem, rfl⟩ := List.mem_map.mp hcsplit
          have hlen : 100 < (stripL l).length := by
            have := of_decide_eq_true hcfilter
            exact this
          have hstripped : ∃ x, l = stripL x := by
            rcases splitLoop_mem 800 _ _ _ l hlmem with h2 | h2
            · simp at h2
            · exact h2
          obtain ⟨x, rfl⟩ := hstripped
          refine ⟨?_, ?_, by show (1 : Nat) ≤ pageNum; exact hpn, hcur'⟩
          · show stripL (stripL x) = stripL x
            exact stripL_idem x
          · show 100 < (stripL x).length
            rw [stripL_idem] at hlen
            exact hlen

/-- C4: every chunk produced by extraction, from any sequence of input
pages, has trimmed text (stripping is the identity on it) of length
strictly greater than 100 characters, a page number at least 1, and a
non-empty chapter string. -/
theorem c4_chunk_wellformed (path : String) (pages : List (Option String))
    (ch : DocumentChunk) (h : ch ∈ extractChunks path pages) :
    stripL ch.text.data = ch.text.data ∧ 100 < ch.text.length
    ∧ 1 ≤ ch.metadata.page ∧ ch.metadata.chapter ≠ "" :=
  extractGo_wellformed path pages 1 "Introduction" [] (le_refl 1) (by decide)
    (by intro ch2 hch2; simp at hch2) ch h

/-- C4 witness: the single chunk extracted from a concrete page. -/
theorem c4_chunk_wellformed_witness :
    c4ChunkW ∈ extractChunks "m.pdf" [some pageW]
    ∧ (stripL c4ChunkW.text.data = c4ChunkW.text.data ∧ 100 < c4ChunkW.text.length
      ∧ 1 ≤ c4ChunkW.metadata.page ∧ c4ChunkW.metadata.chapter ≠ "") :=
  ⟨by decide, c4_chunk_wellformed "m.pdf" [some pageW] c4ChunkW (by decide)⟩

/-! Word-level lemmas for the overlap property (C5). -/

/-- Helper: `str.split()` distributes over a space separator. -/
theorem wordsAcc_space_append :
    ∀ (a cur b : List Char), wordsAcc cur (a ++ ' ' :: b) = wordsAcc cur a ++ wordsAcc [] b := by
  intro a
  induction a with
  | nil =>
    intro cur b
    show wordsAcc cur (' ' :: b) = wordsAcc cur [] ++ wordsAcc [] b
    have hsp : isSpaceB ' ' = true := rfl
    simp only [wordsAcc]
    rw [if_pos hsp]
    by_cases hc : cur = []
    · rw [if_pos hc, if_pos hc]
      rfl
    · rw [if_neg hc, if_neg hc]
      rfl
  | cons c a ih =>
    intro cur b
    simp only [List.cons_append, wordsAcc, List.append_eq]
    by_cases hs : isSpaceB c = true
    · rw [if_pos hs, if_pos hs]
      by_cases hc : cur = []
      · rw [if_pos hc, if_pos hc]
        exact ih [] b
      · rw [if_neg hc, if_neg hc, ih [] b]
        rfl
    · rw [if_neg hs, if_neg hs]
      exact ih (c :: cur) b

theorem pyWordsL_sep (a b : List Char) :
    pyWordsL (a ++ ' ' :: b) = pyWordsL a ++ pyWordsL b :=
  wordsAcc_space_append a [] b

/-- Helper: on an all-non-whitespace string the splitter yields the single
word accumulated so far. -/
theorem wordsAcc_nonspace : ∀ (w cur : List Char),
    (∀ ch ∈ w, isSpaceB ch = false) →
    wordsAcc cur w = if cur.reverse ++ w = [] then [] else [cur.reverse ++ w] := by
  intro w
  induction w with
  | nil =>
    intro cur _
    show (if cur = [] then [] else [cur.reverse])
      = if cur.reverse ++ [] = [] then [] else [cur.reverse ++ []]
    rw [List.append_nil]
    by_cases hc : cur = []
    · subst hc; rfl
    · rw [if_neg hc, if_neg (by simpa using hc)]
  | cons c w ih =>
    intro cur hall
    have hc : isSpaceB c = false := hall c (by simp)
    simp only [wordsAcc]
    rw [if_neg (by simp [hc])]
    rw [ih (c :: cur) fun x hx => hall x (by simp [hx])]
    have h1 : (c :: cur).reverse ++ w = cur.reverse ++ c :: w := by
      rw [List.reverse_cons, List.append_assoc]
      rfl
    rw [h1]

theorem pyWordsL_single (w : List Char) (hne : w ≠ [])
    (hns : ∀ ch ∈ w, isSpaceB ch = false) : pyWordsL w = [w] := by
  show wordsAcc [] w = [w]
  rw [wordsAcc_nonspace w [] hns]
  simp [hne]

/-- Helper: `' '.join` then `str.split()` round-trips on non-empty,
whitespace-free words. -/
theorem pyWordsL_joinSp : ∀ ws : List (List Char),
    (∀ w ∈ ws, w ≠ [] ∧ ∀ ch ∈ w, isSpaceB ch = false) →
    pyWordsL (joinSp ws) = ws := by
  intro ws
  induction ws with
  | nil => intro _; rfl
  | cons w ws ih =>
    intro h
    cases ws with
    | nil =>
      show pyWordsL w = [w]
      exact pyWordsL_single w (h w (by simp)).1 (h w (by simp)).2
    | cons w2 ws2 =>
      show pyWordsL (w ++ ' ' :: joinSp (w2 :: ws2)) = w :: w2 :: ws2
      rw [pyWordsL_sep, pyWordsL_single w (h w (by simp)).1 (h w (by simp)).2,
        ih fun x hx => h x (by simp [hx])]
      rfl

/-- Helper: leading whitespace does not change the word list. -/
theorem pyWordsL_dropWhile (l : List Char) :
    pyWordsL (l.dropWhile isSpaceB) = pyWordsL l := by
  induction l with
  | nil => rfl
  | cons c t ih =>
    by_cases hs : isSpaceB c = true
    · rw [List.dropWhile_cons, if_pos hs, ih]
      show wordsAcc [] t = wordsAcc [] (c :: t)
      simp [wordsAcc, hs]
    · rw [List.dropWhile_cons, if_neg (by simp [hs])]

/-- Helper: a run of whitespace flushes the current word and nothing
else. -/
theorem wordsAcc_all_spaces : ∀ (sp : List Char), (∀ ch ∈ sp, isSpaceB ch = true) →
    ∀ cur, wordsAcc cur sp = wordsAcc cur [] := by
  intro sp
  induction sp with
  | nil => intro _ _; rfl
  | cons c t ih =>
    intro h cur
    have hs := h c (by simp)
    have ht := ih fun x hx => h x (by simp [hx])
    simp only [wordsAcc]
    rw [if_pos hs]
    by_cases hc : cur = []
    · rw [if_pos hc, if_pos hc, ht []]
      rfl
    · rw [if_neg hc, if_neg hc, ht []]
      rfl

/-- Helper: trailing whitespace does not change the word list. -/
theorem wordsAcc_append_spaces : ∀ (x cur sp : List Char),
    (∀ ch ∈ sp, isSpaceB ch = true) → wordsAcc cur (x ++ sp) = wordsAcc cur x := by
  intro x
  induction x with
  | nil => intro cur sp h; exact wordsAcc_all_spaces sp h cur
  | cons c t ih =>
    intro cur sp h
    simp only [List.cons_append, wordsAcc, List.append_eq]
    by_cases hs : isSpaceB c = true
    · rw [if_pos hs, if_pos hs]
      by_cases hc : cur = []
      · rw [if_pos hc, if_pos hc]
        exact ih [] sp h
      · rw [if_neg hc, if_neg hc, ih [] sp h]
    · rw [if_neg hs, if_neg hs]
      exact ih (c :: cur) sp h

/-- Helper: Python `strip` does not change the word list. -/
theorem pyWordsL_stripL (l : List Char) : pyWordsL (stripL l) = pyWordsL l := by
  have hsplit : (l.dropWhile isSpaceB).reverse
      = (l.dropWhile isSpaceB).reverse.takeWhile isSpaceB
        ++ (l.dropWhile isSpaceB).reverse.dropWhile isSpaceB :=
    (List.takeWhile_append_dropWhile isSpaceB (l.dropWhile isSpaceB).reverse).symm
  have hdecomp := congrArg List.reverse hsplit
  rw [List.reverse_reverse, List.reverse_append] at hdecomp
  have hsp : ∀ ch ∈ ((l.dropWhile isSpaceB).reverse.takeWhile isSpaceB).reverse,
      isSpaceB ch = true := by
    intro ch hch
    rw [List.mem_reverse] at hch
    exact List.mem_takeWhile_imp hch
  calc pyWordsL (stripL l)
      = pyWordsL (stripL l
          ++ ((l.dropWhile isSpaceB).reverse.takeWhile isSpaceB).reverse) :=
        (wordsAcc_append_spaces _ [] _ hsp).symm
    _ = pyWordsL (l.dropWhile isSpaceB) := by
        unfold stripL
        rw [← hdecomp]
    _ = pyWordsL l := pyWordsL_dropWhile l

/-- Helper: every word produced by `str.split()` is non-empty and free of
whitespace. -/
theorem pyWordsL_elems : ∀ (l cur : List Char),
    (∀ ch ∈ cur, isSpaceB ch = false) →
    ∀ w ∈ wordsAcc cur l, w ≠ [] ∧ ∀ ch ∈ w, isSpaceB ch = false := by
  intro l
  induction l with
  | nil =>
    intro cur hcur w hw
    by_cases hc : cur = []
    · subst hc; simp [wordsAcc] at hw
    · simp only [wordsAcc, if_neg hc, List.mem_singleton] at hw
      subst hw
      refine ⟨by simpa using hc, fun ch hch => hcur ch (List.mem_reverse.mp hch)⟩
  | cons c t ih =>
    intro cur hcur w hw
    simp only [wordsAcc] at hw
    by_cases hs : isSpaceB c = true
    · rw [if_pos hs] at hw
      by_cases hc : cur = []
      · rw [if_pos hc] at hw
        exact ih [] (by simp) w hw
      · rw [if_neg hc] at hw
        rcases List.mem_cons.mp hw with rfl | hw2
        · refine ⟨by simpa using hc, fun ch hch => hcur ch (List.mem_reverse.mp hch)⟩
        · exact ih [] (by simp) w hw2
    · rw [if_neg hs] at hw
      refine ih (c :: cur) ?_ w hw
      intro ch hch
      rcases List.mem_cons.mp hch with rfl | h2
      · simpa using hs
      · exact hcur ch h2

theorem pyWordsL_elems_of_mem (l : List Char) :
    ∀ w ∈ pyWordsL l, w ≠ [] ∧ ∀ ch ∈ w, isSpaceB ch = false :=
  fun w hw => pyWordsL_elems l [] (by simp) w hw

/-- Helper: taking `n` elements of an append whose left part has at least
`n` elements ignores the right part. -/
theorem take_of_le_append {α : Type} (n : Nat) (A B : List α) (h : n ≤ A.length) :
    (A ++ B).take n = A.take n := by
  have h1 : A ++ B = A.take n ++ (A.drop n ++ B) := by
    rw [← List.append_assoc, List.take_append_drop]
  rw [h1]
  exact List.take_left' (by rw [List.length_take]; omega)

/-- Helper: invariant of the sentence-accumulation loop — the 20-word
overlap relation holds between consecutive chunks of the output, given
that it holds inside the accumulator and between the accumulator's last
chunk and the current chunk. -/
theorem splitLoop_chain (chunkSize : Nat) :
    ∀ (ss : List (List Char)) (cur : List Char) (chunks : List (List Char)),
      List.Chain' (fun a b => 20 < (pyWordsL a).length →
        (pyWordsL b).take 20 = (pyWordsL a).drop ((pyWordsL a).length - 20)) chunks →
      (∀ last, chunks.getLast? = some last → 20 < (pyWordsL last).length →
        (pyWordsL cur).take 20 = (pyWordsL last).drop ((pyWordsL last).length - 20)) →
      List.Chain' (fun a b => 20 < (pyWordsL a).length →
        (pyWordsL b).take 20 = (pyWordsL a).drop ((pyWordsL a).length - 20))
        (splitLoop chunkSize ss cur chunks) := by
  intro ss
  induction ss with
  | nil =>
    intro cur chunks hch hlink
    simp only [splitLoop]
    split
    · exact hch
    · rw [List.chain'_append]
      refine ⟨hch, List.chain'_singleton _, ?_⟩
      intro x hx y hy
      simp only [List.head?_cons, Option.mem_def, Option.some.injEq] at hy
      subst hy
      intro hgt
      rw [pyWordsL_stripL]
      exact hlink x (Option.mem_def.mp hx) hgt
  | cons s rest ih =>
    intro cur chunks hch hlink
    simp only [splitLoop]
    split
    · apply ih
      · rw [List.chain'_append]
        refine ⟨hch, List.chain'_singleton _, ?_⟩
        intro x hx y hy
        simp only [List.head?_cons, Option.mem_def, Option.some.injEq] at hy
        subst hy
        intro hgt
        rw [pyWordsL_stripL]
        exact hlink x (Option.mem_def.mp hx) hgt
      · intro last hl hgt
        rw [List.getLast?_concat] at hl
        injection hl with hl
        subst hl
        rw [pyWordsL_stripL] at hgt ⊢
        rw [if_pos hgt]
        rw [pyWordsL_sep,
          pyWordsL_joinSp _ fun w hw =>
            pyWordsL_elems_of_mem cur w (List.drop_subset _ _ hw)]
        exact List.take_left' (by rw [List.length_drop]; omega)
    · apply ih
      · exact hch
      · intro last hl hgt
        have h0 := hlink last hl hgt
        rw [pyWordsL_sep]
        have hlen20 : 20 ≤ (pyWordsL cur).length := by
          have hlen := congrArg List.length h0
          rw [List.length_take, List.length_drop] at hlen
          omega
        rw [take_of_le_append 20 _ _ hlen20]
        exact h0

/-- C5: for every page text and chunk-size configuration, any two
consecutively produced chunks of `_split_text` where chunk `i` has more
than 20 words satisfy the overlap property: the trailing 20 words of
chunk `i` are exactly the leading 20 words of chunk `i+1`. -/
theorem c5_overlap (chunkSize : Nat) (text : String) (i : Nat)
    (h : i + 1 < (splitText chunkSize text).length)
    (hw : 20 < (pyWordsL ((splitText chunkSize text).getD i "").data).length) :
    (pyWordsL ((splitText chunkSize text).getD (i + 1) "").data).take 20
      = (pyWordsL ((splitText chunkSize text).getD i "").data).drop
          ((pyWordsL ((splitText chunkSize text).getD i "").data).length - 20) := by
  have hchain := splitLoop_chain chunkSize
    (splitSentences (stripL (collapseWsL text.data))) [] []
    List.chain'_nil (by intro last hl; simp at hl)
  have hlen : (splitText chunkSize text).length
      = (splitLoop chunkSize (splitSentences (stripL (collapseWsL text.data))) [] []).length := by
    unfold splitText
    rw [List.length_map]
  have hi : i < (splitText chunkSize text).length := by omega
  have hi1 : i + 1 < (splitText chunkSize text).length := h
  have egetD : ∀ (j : Nat) (hj : j < (splitText chunkSize text).length),
      ((splitText chunkSize text).getD j "").data
        = (splitLoop chunkSize (splitSentences (stripL (collapseWsL text.data))) [] []).get
            ⟨j, by omega⟩ := by
    intro j hj
    rw [List.getD_eq_getElem?_getD, List.getElem?_eq_getElem hj]
    show ((splitText chunkSize text)[j]).data = _
    unfold splitText
    rw [List.getElem_map]
    rfl
  rw [egetD i hi, egetD (i + 1) hi1]
  rw [egetD i hi] at hw
  exact (List.chain'_iff_get.mp hchain) i (by omega) hw

/-- C5 witness: a 960-character text split at chunk size 800 yields two
chunks, the first having 250 words. -/
theorem c5_overlap_witness :
    (1 + 1 ≤ (splitText 800 c5text).length
      ∧ 20 < (pyWordsL ((splitText 800 c5text).getD 0 "").data).length)
    ∧ (pyWordsL ((splitText 800 c5text).getD 1 "").data).take 20
        = (pyWordsL ((splitText 800 c5text).getD 0 "").data).drop
            ((pyWordsL ((splitText 800 c5text).getD 0 "").data).length - 20) :=
  ⟨⟨by decide, by decide⟩, c5_overlap 800 c5text 0 (by decide) (by decide)⟩

/-- C8 witness: two chunks with two distinct chapters, a one-vector-per-
text stub embedding. -/
theorem c8_stats_correct_witness :
    (embedW (chunksW.map (·.text))).length = chunksW.length
    ∧ ((getCollectionStats Nat (addDocuments Nat embedW (emptyCollection Nat) chunksW).1).totalChunks
          = chunksW.length
      ∧ (getCollectionStats Nat (addDocuments Nat embedW (emptyCollection Nat) chunksW).1).uniqueChapters
          = (chunksW.map (·.metadata.chapter)).dedup.length
      ∧ ((getCollectionStats Nat (addDocuments Nat embedW (emptyCollection Nat) chunksW).1).chapters).Pairwise
          (fun a b : String => strLeB a b = true)
      ∧ ((getCollectionStats Nat (addDocuments Nat embedW (emptyCollection Nat) chunksW).1).chapters).Nodup
      ∧ ∀ c, c ∈ (getCollectionStats Nat (addDocuments Nat embedW (emptyCollection Nat) chunksW).1).chapters
          ↔ c ∈ chunksW.map (·.metadata.chapter)) :=
  ⟨by decide, c8_stats_correct Nat embedW chunksW (by decide)⟩

end SupportBot
